import Mathlib

/-!
Verification of the brainfuck interpreter (src/brainfuck.rs).

The sanitizer `sanitise_code` is modelled as three passes over the source,
mirroring the three regex rewrites of the Rust code, followed by the
stray-comment-marker checks and the bracket-count checks.  The execution
engine `execute_code` is modelled by a one-instruction `step` function and a
fuel-indexed `run` loop over an explicit machine state.  Source text and the
instruction stream are lists of characters; positions are character offsets
(the Rust code uses byte offsets, which agree on ASCII input).
-/

namespace Brainfuck

/-- The eight recognised instruction characters. -/
def isInstr (c : Char) : Bool :=
  c = '>' || c = '<' || c = '+' || c = '-' || c = '[' || c = ']' || c = '.' || c = ','

/-- The whitespace characters removed by the second regex pass `\n|\r| |\t`. -/
def isStrippedWS (c : Char) : Bool :=
  c = '\n' || c = '\r' || c = ' ' || c = '\t'

/-- Everything up to (excluding) the next newline is dropped; the newline
itself is kept, as the regex `.` does not match a newline. -/
def dropToEol : List Char → List Char
  | [] => []
  | c :: cs => if c = '\n' then c :: cs else dropToEol cs

/-- First regex pass: `Regex::new(r"\/\/.+").replace(code, "")`.
`replace` rewrites only the leftmost match: two slashes followed by at least
one non-newline character, extending greedily to the end of the line. -/
def stripLineComment : List Char → List Char
  | c :: d :: e :: rest =>
    if c = '/' ∧ d = '/' ∧ e ≠ '\n' then dropToEol rest
    else c :: stripLineComment (d :: e :: rest)
  | l => l

/-- Second regex pass: `Regex::new(r"\n|\r| |\t").replace_all(new_code, "")`. -/
def stripWhitespace (s : List Char) : List Char :=
  s.filter (fun c => !(isStrippedWS c))

/-- Third regex pass: `Regex::new(r"(\/\*)|(\*\/)").replace_all(new_code_2, "")`.
Every (leftmost, non-overlapping) occurrence of an open or close marker is
deleted; the text between markers is not touched by this pass. -/
def stripBlockMarkers : List Char → List Char
  | c :: d :: rest =>
    if (c = '/' ∧ d = '*') ∨ (c = '*' ∧ d = '/') then stripBlockMarkers rest
    else c :: stripBlockMarkers (d :: rest)
  | l => l

/-- The composition of the three passes: `new_code_3` in the Rust source. -/
def stripAll (code : List Char) : List Char :=
  stripBlockMarkers (stripWhitespace (stripLineComment code))

/-- `str::find` for a two-character pattern: index of the leftmost occurrence. -/
def find2 (a b : Char) : List Char → Option Nat
  | c :: d :: rest =>
    if c = a ∧ d = b then some 0
    else Option.map (fun n => n + 1) (find2 a b (d :: rest))
  | _ => none

/-- `str::find` for a single character. -/
def findIdxChar (a : Char) : List Char → Option Nat
  | [] => none
  | c :: cs => if c = a then some 0 else Option.map (fun n => n + 1) (findIdxChar a cs)

/-- `str::rfind` for a single character: index of the rightmost occurrence. -/
def rfindIdxChar (a : Char) : List Char → Option Nat
  | [] => none
  | c :: cs =>
    match rfindIdxChar a cs with
    | some i => some (i + 1)
    | none => if c = a then some 0 else none

/-- `.bytes().filter(|c| *c == b'X').count()`. -/
def countChar (a : Char) (l : List Char) : Nat :=
  (l.filter (fun c => c == a)).length

/-- The error kinds the interpreter reports.  `FatalError` stands for the
panic of the `.expect(...)` call on the loop-return stack and of `.unwrap()`,
which abort with a message distinct from the four thrown error kinds. -/
inductive ErrKind
  | SyntaxError
  | OutOfBoundsError
  | OverflowError
  | SubZeroError
  | FatalError
deriving DecidableEq

/-- An abnormal termination: kind, optional position, message. -/
structure Err where
  kind : ErrKind
  pos : Option Nat
  msg : String
deriving DecidableEq

def msgUnterminatedComment : String :=
  "cannot import code with unterminated multi-line comments. (\"/*\" was found in the code.)"

def msgStrayComment : String :=
  "cannot import code with stray comment characters. (\"*/\" was found in the code.)"

def msgUnterminatedLoop : String :=
  "cannot import code with unterminated while loops. (Unmatched \"[\" was found in the code.)"

def msgTrailingLoop : String :=
  "cannot import code with trailing while loop characters. (Unmatched \"]\" was found in the code.)"

def msgRight : String := "cannot move pointer outside of rightward bounds."

def msgLeft : String := "cannot move pointer outside of leftward bounds."

def msgOverflow : String := "cannot increment memory block past integer limit of 255."

def msgSubZero : String := "cannot decrement memory block below 0."

def msgInputOverflow : String := "inputted character exceeds value of 255."

def msgFatal : String :=
  "Fatal Error: the while loop last indexes array did not contain any indexes."

def msgFromU32 : String := "char::from_u32 returned None."

def msgUnrecognised (c : Char) : String :=
  "unrecognised character " ++ c.toString ++ " found in code."

/-- `sanitise_code` from src/brainfuck.rs: the three passes, then the two
stray-marker checks on the stripped text, then the bracket-count checks whose
reported positions are looked up in the original `code`.  In the Rust source a
bracket-count mismatch whose marker cannot be found in the original text falls
through and returns normally, hence the `none => .ok` arms. -/
def sanitise_code (code : List Char) : Except Err (List Char) :=
  match find2 '/' '*' (stripAll code) with
  | some p => .error ⟨.SyntaxError, some p, msgUnterminatedComment⟩
  | none =>
    match find2 '*' '/' (stripAll code) with
    | some p => .error ⟨.SyntaxError, some p, msgStrayComment⟩
    | none =>
      if countChar '[' (stripAll code) > countChar ']' (stripAll code) then
        match findIdxChar '[' code with
        | some i => .error ⟨.SyntaxError, some i, msgUnterminatedLoop⟩
        | none => .ok (stripAll code)
      else if countChar '[' (stripAll code) < countChar ']' (stripAll code) then
        match rfindIdxChar ']' code with
        | some i => .error ⟨.SyntaxError, some i, msgTrailingLoop⟩
        | none => .ok (stripAll code)
      else .ok (stripAll code)

/-! Execution engine -/

/-- The mutable state of the interpreter loop in `execute_code`.  `memory` models
the `[i32; 30_000]` array as a total function (only indexes 0..29999 are ever
used, guarded by the pointer bound checks); `stack` is
`while_loop_start_indexes` with its last element at the head; `inIdx` counts
the characters consumed from the input source; `output` collects every
character printed by the output instruction (including the newline that
`println!` appends). -/
structure EngState where
  codeIdx : Nat
  stack : List Nat
  hasOutput : Bool
  memory : Nat → Int
  ptr : Nat
  furthest : Nat
  inIdx : Nat
  output : List Char

/-- Point update of the memory array. -/
def updMem (m : Nat → Int) (i : Nat) (v : Int) : Nat → Int :=
  fun j => if j = i then v else m j

def initMem : Nat → Int := fun _ => 0

/-- The state at the top of the loop of `execute_code` on entry. -/
def initState : EngState :=
  { codeIdx := 0, stack := [], hasOutput := false, memory := initMem,
    ptr := 0, furthest := 0, inIdx := 0, output := [] }

/-- The `i32` value reinterpreted by an `as u32` cast. -/
def u32OfI32 (v : Int) : Nat := (v % 4294967296).toNat

/-- The scalar values for which `char::from_u32` returns `Some`. -/
def isValidCharNat (n : Nat) : Bool :=
  n < 55296 || (57343 < n && n < 1114112)

/-- Result of one iteration of the interpreter loop. -/
inductive StepResult
  | next (s : EngState)
  | fail (e : Err)

/-- One iteration of the `while code_index < brainfuck_code.len()` loop of
`execute_code`, dispatching on the current character `c`.  The unconditional
`code_index += 1` at the bottom of the Rust loop is folded into every arm
(for the taken loop-exit branch this makes the next index `i + 1` where `i`
is the loop-entry index read from the stack top without popping). -/
def step (inputs : Nat → Char) (c : Char) (s : EngState) : StepResult :=
  if c = '>' then
    if s.ptr = 29999 then .fail ⟨.OutOfBoundsError, none, msgRight⟩
    else
      .next { s with ptr := s.ptr + 1,
                     furthest := if s.ptr + 1 > s.furthest then s.ptr + 1 else s.furthest,
                     codeIdx := s.codeIdx + 1 }
  else if c = '<' then
    if s.ptr = 0 then .fail ⟨.OutOfBoundsError, none, msgLeft⟩
    else .next { s with ptr := s.ptr - 1, codeIdx := s.codeIdx + 1 }
  else if c = '+' then
    if s.memory s.ptr = 255 then .fail ⟨.OverflowError, none, msgOverflow⟩
    else .next { s with memory := updMem s.memory s.ptr (s.memory s.ptr + 1),
                        codeIdx := s.codeIdx + 1 }
  else if c = '-' then
    if s.memory s.ptr = 0 then .fail ⟨.SubZeroError, none, msgSubZero⟩
    else .next { s with memory := updMem s.memory s.ptr (s.memory s.ptr - 1),
                        codeIdx := s.codeIdx + 1 }
  else if c = '[' then
    .next { s with stack := s.codeIdx :: s.stack, codeIdx := s.codeIdx + 1 }
  else if c = ']' then
    if s.memory s.ptr > 0 then
      match s.stack with
      | i :: _ => .next { s with codeIdx := i + 1 }
      | [] => .fail ⟨.FatalError, none, msgFatal⟩
    else .next { s with stack := s.stack.tail, codeIdx := s.codeIdx + 1 }
  else if c = '.' then
    if isValidCharNat (u32OfI32 (s.memory s.ptr)) then
      .next { s with output := s.output ++ [Char.ofNat (u32OfI32 (s.memory s.ptr)), '\n'],
                     hasOutput := true, codeIdx := s.codeIdx + 1 }
    else .fail ⟨.FatalError, none, msgFromU32⟩
  else if c = ',' then
    if (inputs s.inIdx).toNat > 255 then
      .fail ⟨.OverflowError, some s.codeIdx, msgInputOverflow⟩
    else
      .next { s with memory := updMem s.memory s.ptr ((inputs s.inIdx).toNat : Int),
                     inIdx := s.inIdx + 1, codeIdx := s.codeIdx + 1 }
  else .fail ⟨.SyntaxError, some s.codeIdx, msgUnrecognised c⟩

/-- Result of running the interpreter loop to completion. -/
inductive Outcome
  | ok (s : EngState)
  | err (e : Err)
  | outOfFuel

/-- The interpreter loop, with explicit fuel to bound the number of
iterations.  The loop exits normally as soon as `codeIdx` walks past the end
of the instruction stream. -/
def run (inputs : Nat → Char) (code : List Char) : Nat → EngState → Outcome
  | 0, _ => .outOfFuel
  | fuel + 1, s =>
    match code[s.codeIdx]? with
    | none => .ok s
    | some c =>
      match step inputs c s with
      | .next s2 => run inputs code fuel s2
      | .fail e => .err e

/-- `execute_code`: sanitise, then interpret from the initial state. -/
def execute_code (inputs : Nat → Char) (fuel : Nat) (code : List Char) : Except Err Outcome :=
  match sanitise_code code with
  | .error e => .error e
  | .ok bf => .ok (run inputs bf fuel initState)

/-- Cells hold values in 0..255 and the pointer stays on the tape. -/
def EngInv (s : EngState) : Prop :=
  (∀ i : Nat, 0 ≤ s.memory i ∧ s.memory i ≤ 255) ∧ s.ptr ≤ 29999

def finalState : Outcome → Option EngState
  | .ok s => some s
  | _ => none

def outputOf (o : Outcome) : Option (List Char) :=
  (finalState o).map (fun s => s.output)

def cellOf (o : Outcome) (i : Nat) : Option Int :=
  (finalState o).map (fun s => s.memory i)

/-- A constant input source, used to instantiate theorems. -/
def inpA : Nat → Char := fun _ => 'A'

/-- A sanitizer result that is an error of kind `SyntaxError` carrying a position. -/
def isPositionedSyntaxError : Except Err (List Char) → Bool
  | .error e => (e.kind == ErrKind.SyntaxError) && e.pos.isSome
  | .ok _ => false

/-- No two adjacent slashes anywhere in the list (so the line-comment regex
`\/\/.+` has no match). -/
def NoDS : List Char → Prop
  | c :: d :: rest => ¬(c = '/' ∧ d = '/') ∧ NoDS (d :: rest)
  | _ => True

/-- Machine state with the pointer at cell 0 and that cell at 255. -/
def wsPtr0 : EngState := { initState with memory := updMem initMem 0 255 }

/-- Machine state with the pointer at the last tape cell. -/
def wsPtrMax : EngState := { initState with ptr := 29999 }

/-- Machine state with the pointer at cell 5 (all cells zero). -/
def wsPtrMid : EngState := { initState with ptr := 5 }

/-- Machine state with cell 0 at value 1 and an empty loop-return stack. -/
def wsStk : EngState := { initState with memory := updMem initMem 0 1 }

/-- The state produced by an increment instruction from the initial state. -/
def sAfterPlus : EngState :=
  { initState with
    memory := updMem initState.memory initState.ptr (initState.memory initState.ptr + 1),
    codeIdx := initState.codeIdx + 1 }

/-! Helper lemmas about the sanitizer passes. -/

theorem mem_dropToEol {a : Char} : ∀ {l : List Char}, a ∈ dropToEol l → a ∈ l
  | [], h => h
  | c :: cs, h => by
    simp only [dropToEol] at h
    split at h
    · exact h
    · exact List.mem_cons_of_mem c (mem_dropToEol h)

theorem mem_stripLineComment {a : Char} : ∀ {l : List Char}, a ∈ stripLineComment l → a ∈ l
  | [], h => h
  | [_], h => h
  | [_, _], h => h
  | c :: d :: e :: rest, h => by
    simp only [stripLineComment] at h
    split at h
    · exact List.mem_cons_of_mem c (List.mem_cons_of_mem d (List.mem_cons_of_mem e
        (mem_dropToEol h)))
    · rcases List.mem_cons.mp h with h1 | h2
      · exact List.mem_cons.mpr (Or.inl h1)
      · exact List.mem_cons_of_mem c (mem_stripLineComment h2)

theorem mem_stripBlockMarkers {a : Char} : ∀ {l : List Char}, a ∈ stripBlockMarkers l → a ∈ l
  | [], h => h
  | [_], h => h
  | c :: d :: rest, h => by
    simp only [stripBlockMarkers] at h
    split at h
    · exact List.mem_cons_of_mem c (List.mem_cons_of_mem d (mem_stripBlockMarkers h))
    · rcases List.mem_cons.mp h with h1 | h2
      · exact List.mem_cons.mpr (Or.inl h1)
      · exact List.mem_cons_of_mem c (mem_stripBlockMarkers h2)

theorem mem_stripAll {a : Char} {code : List Char} (h : a ∈ stripAll code) : a ∈ code :=
  mem_stripLineComment (List.mem_of_mem_filter (mem_stripBlockMarkers h))

theorem notWS_of_mem_stripAll {a : Char} {code : List Char} (h : a ∈ stripAll code) :
    isStrippedWS a = false := by
  have h2 := List.mem_filter.mp (mem_stripBlockMarkers h)
  simpa using h2.2

theorem slc_cons {c : Char} (hc : ¬c = '/') :
    ∀ l, stripLineComment (c :: l) = c :: stripLineComment l
  | [] => rfl
  | [_] => rfl
  | d :: e :: rest => by
    simp only [stripLineComment]
    rw [if_neg (fun h => hc h.1)]

theorem slc_cons_cons {c d : Char} (hd : ¬d = '/') :
    ∀ l, stripLineComment (c :: d :: l) = c :: stripLineComment (d :: l)
  | [] => rfl
  | e :: rest => by
    simp only [stripLineComment]
    rw [if_neg (fun h => hd h.2.1)]

theorem NoDS_cons_of {c : Char} {l : List Char} (hc : ¬c = '/') (hl : NoDS l) :
    NoDS (c :: l) := by
  cases l with
  | nil => trivial
  | cons d t => exact ⟨fun h => hc h.1, hl⟩

theorem NoDS_cons_cons_of {c d : Char} {l : List Char} (hd : ¬d = '/') (h : NoDS (d :: l)) :
    NoDS (c :: d :: l) :=
  ⟨fun hh => hd hh.2, h⟩

theorem NoDS_of_noslash : ∀ l : List Char, (∀ c ∈ l, ¬c = '/') → NoDS l
  | [], _ => trivial
  | c :: cs, h =>
    NoDS_cons_of (h c (List.mem_cons_self c cs))
      (NoDS_of_noslash cs (fun a ha => h a (List.mem_cons_of_mem c ha)))

theorem NoDS_append_noslash :
    ∀ p : List Char, (∀ c ∈ p, ¬c = '/') → ∀ {r : List Char}, NoDS r → NoDS (p ++ r)
  | [], _, _, hr => hr
  | c :: p, hp, _r, hr =>
    NoDS_cons_of (hp c (List.mem_cons_self c p))
      (NoDS_append_noslash p (fun a ha => hp a (List.mem_cons_of_mem c ha)) hr)

theorem slc_id_of_NoDS : ∀ l : List Char, NoDS l → stripLineComment l = l
  | [], _ => rfl
  | [_], _ => rfl
  | c :: d :: t, h => by
    by_cases hc : c = '/'
    · subst hc
      have hd : ¬d = '/' := fun hdd => h.1 ⟨rfl, hdd⟩
      rw [slc_cons_cons hd t, slc_id_of_NoDS (d :: t) h.2]
    · rw [slc_cons hc (d :: t), slc_id_of_NoDS (d :: t) h.2]

theorem sbm_cons {c : Char} (hc : ¬c = '/') (hc2 : ¬c = '*') :
    ∀ l, stripBlockMarkers (c :: l) = c :: stripBlockMarkers l
  | [] => rfl
  | d :: rest => by
    simp only [stripBlockMarkers]
    rw [if_neg (fun h => h.elim (fun hh => hc hh.1) (fun hh => hc2 hh.1))]

theorem sbm_open (l : List Char) : stripBlockMarkers ('/' :: '*' :: l) = stripBlockMarkers l := by
  rw [stripBlockMarkers, if_pos (Or.inl ⟨rfl, rfl⟩)]

theorem sbm_close (l : List Char) : stripBlockMarkers ('*' :: '/' :: l) = stripBlockMarkers l := by
  rw [stripBlockMarkers, if_pos (Or.inr ⟨rfl, rfl⟩)]

theorem sbm_id_of : ∀ l : List Char, (∀ c ∈ l, ¬c = '/' ∧ ¬c = '*') → stripBlockMarkers l = l
  | [], _ => rfl
  | c :: cs, h => by
    have hc := h c (List.mem_cons_self c cs)
    rw [sbm_cons hc.1 hc.2 cs, sbm_id_of cs (fun a ha => h a (List.mem_cons_of_mem c ha))]

theorem sbm_append_id :
    ∀ p : List Char, (∀ c ∈ p, ¬c = '/' ∧ ¬c = '*') →
      ∀ r, stripBlockMarkers (p ++ r) = p ++ stripBlockMarkers r
  | [], _, _ => rfl
  | c :: p, h, r => by
    have hc := h c (List.mem_cons_self c p)
    rw [List.cons_append, sbm_cons hc.1 hc.2,
      sbm_append_id p (fun a ha => h a (List.mem_cons_of_mem c ha)) r, List.cons_append]

theorem sw_append (l1 l2 : List Char) :
    stripWhitespace (l1 ++ l2) = stripWhitespace l1 ++ stripWhitespace l2 :=
  List.filter_append l1 l2

theorem sw_cons_keep {c : Char} (h : isStrippedWS c = false) (l : List Char) :
    stripWhitespace (c :: l) = c :: stripWhitespace l := by
  simp [stripWhitespace, List.filter_cons, h]

theorem sw_id_of (l : List Char) (h : ∀ c ∈ l, isStrippedWS c = false) :
    stripWhitespace l = l := by
  apply List.filter_eq_self.mpr
  intro a ha
  simp [h a ha]

theorem sw_nil_of (l : List Char) (h : ∀ c ∈ l, isStrippedWS c = true) :
    stripWhitespace l = [] := by
  apply List.filter_eq_nil_iff.mpr
  intro a ha
  simp [h a ha]

theorem instr_spec {c : Char} (h : isInstr c = true) :
    ¬c = '/' ∧ ¬c = '*' ∧ isStrippedWS c = false := by
  simp only [isInstr, Bool.or_eq_true, decide_eq_true_eq] at h
  rcases h with ((((((rfl | rfl) | rfl) | rfl) | rfl) | rfl) | rfl) | rfl <;>
    exact ⟨by decide, by decide, by decide⟩

theorem ws_spec {c : Char} (h : isStrippedWS c = true) : ¬c = '/' ∧ ¬c = '*' := by
  simp only [isStrippedWS, Bool.or_eq_true, decide_eq_true_eq] at h
  rcases h with ((rfl | rfl) | rfl) | rfl <;> exact ⟨by decide, by decide⟩

theorem find2_none_of {a : Char} (b : Char) :
    ∀ l : List Char, (∀ c ∈ l, ¬c = a) → find2 a b l = none
  | [], _ => rfl
  | [_], _ => rfl
  | c :: d :: rest, h => by
    rw [find2, if_neg (fun hh => h c (List.mem_cons_self c (d :: rest)) hh.1),
      find2_none_of b (d :: rest) (fun x hx => h x (List.mem_cons_of_mem c hx))]
    rfl

theorem countChar_pos_mem {a : Char} : ∀ {l : List Char}, 0 < countChar a l → a ∈ l
  | [], h => absurd h (by simp [countChar])
  | c :: cs, h => by
    by_cases hc : c = a
    · exact hc ▸ List.mem_cons_self c cs
    · refine List.mem_cons_of_mem c (countChar_pos_mem ?_)
      simpa [countChar, List.filter_cons, hc] using h

theorem findIdxChar_isSome {a : Char} : ∀ {l : List Char}, a ∈ l → (findIdxChar a l).isSome = true
  | [], h => absurd h (List.not_mem_nil a)
  | c :: cs, h => by
    rw [findIdxChar]
    by_cases hc : c = a
    · rw [if_pos hc]; rfl
    · rw [if_neg hc]
      rcases List.mem_cons.mp h with h1 | h2
      · exact absurd h1.symm hc
      · have hs := findIdxChar_isSome h2
        rcases hf : findIdxChar a cs with _ | i
        · rw [hf] at hs; exact absurd hs (by simp)
        · simp [hf]

theorem rfindIdxChar_isSome {a : Char} :
    ∀ {l : List Char}, a ∈ l → (rfindIdxChar a l).isSome = true
  | [], h => absurd h (List.not_mem_nil a)
  | c :: cs, h => by
    rw [rfindIdxChar]
    rcases hf : rfindIdxChar a cs with _ | i
    · simp only [hf]
      rcases List.mem_cons.mp h with h1 | h2
      · rw [if_pos h1.symm]; rfl
      · have hs := rfindIdxChar_isSome h2
        rw [hf] at hs
        exact absurd hs (by simp)
    · simp only [hf]
      rfl

/-! Unfolding lemmas for `sanitise_code`. -/

theorem sanitise_of_no_marker {code : List Char}
    (h1 : find2 '/' '*' (stripAll code) = none)
    (h2 : find2 '*' '/' (stripAll code) = none) :
    sanitise_code code =
      (if countChar '[' (stripAll code) > countChar ']' (stripAll code) then
        match findIdxChar '[' code with
        | some i => .error ⟨.SyntaxError, some i, msgUnterminatedLoop⟩
        | none => .ok (stripAll code)
      else if countChar '[' (stripAll code) < countChar ']' (stripAll code) then
        match rfindIdxChar ']' code with
        | some i => .error ⟨.SyntaxError, some i, msgTrailingLoop⟩
        | none => .ok (stripAll code)
      else .ok (stripAll code)) := by
  rw [sanitise_code, h1, h2]

theorem sanitise_ok_of_clean {code : List Char}
    (h1 : find2 '/' '*' (stripAll code) = none)
    (h2 : find2 '*' '/' (stripAll code) = none)
    (hc : countChar '[' (stripAll code) = countChar ']' (stripAll code)) :
    sanitise_code code = .ok (stripAll code) := by
  rw [sanitise_of_no_marker h1 h2, if_neg (by omega), if_neg (by omega)]

/-- The three passes on a program of instruction characters change nothing. -/
theorem stripAll_of_instr (l : List Char) (hl : ∀ c ∈ l, isInstr c = true) :
    stripAll l = l := by
  have h1 : ∀ c ∈ l, ¬c = '/' := fun c hc => (instr_spec (hl c hc)).1
  rw [stripAll, slc_id_of_NoDS l (NoDS_of_noslash l h1),
    sw_id_of l (fun c hc => (instr_spec (hl c hc)).2.2),
    sbm_id_of l (fun c hc => ⟨(instr_spec (hl c hc)).1, (instr_spec (hl c hc)).2.1⟩)]

/-- The three passes on a block comment with a slash-free, star-free body `m`,
inserted between instruction-only `p` and `q`: only whitespace and the two
markers disappear; the body stays. -/
theorem stripAll_block (p m q : List Char)
    (hp : ∀ c ∈ p, isInstr c = true) (hq : ∀ c ∈ q, isInstr c = true)
    (hm : ∀ c ∈ m, ¬c = '/' ∧ ¬c = '*') :
    stripAll (p ++ '/' :: '*' :: (m ++ '*' :: '/' :: q)) = p ++ stripWhitespace m ++ q := by
  have hp2 : ∀ c ∈ p, ¬c = '/' := fun c hc => (instr_spec (hp c hc)).1
  have hq2 : ∀ c ∈ q, ¬c = '/' := fun c hc => (instr_spec (hq c hc)).1
  have hNoDS : NoDS (p ++ '/' :: '*' :: (m ++ '*' :: '/' :: q)) := by
    refine NoDS_append_noslash p hp2 ?_
    refine NoDS_cons_cons_of (by decide) ?_
    refine NoDS_cons_of (by decide) ?_
    refine NoDS_append_noslash m (fun c hc => (hm c hc).1) ?_
    refine NoDS_cons_of (by decide) ?_
    cases q with
    | nil => trivial
    | cons qh qt =>
      exact NoDS_cons_cons_of (hq2 qh (List.mem_cons_self qh qt)) (NoDS_of_noslash (qh :: qt) hq2)
  have h1 := slc_id_of_NoDS _ hNoDS
  have hswp : stripWhitespace p = p := sw_id_of p (fun c hc => (instr_spec (hp c hc)).2.2)
  have hswq : stripWhitespace q = q := sw_id_of q (fun c hc => (instr_spec (hq c hc)).2.2)
  have h2 : stripWhitespace (p ++ '/' :: '*' :: (m ++ '*' :: '/' :: q)) =
      p ++ '/' :: '*' :: (stripWhitespace m ++ '*' :: '/' :: q) := by
    rw [sw_append, hswp, sw_cons_keep (by decide), sw_cons_keep (by decide), sw_append,
      sw_cons_keep (by decide), sw_cons_keep (by decide), hswq]
  have hm2 : ∀ c ∈ stripWhitespace m, ¬c = '/' ∧ ¬c = '*' :=
    fun c hc => hm c (List.mem_of_mem_filter hc)
  have hpns : ∀ c ∈ p, ¬c = '/' ∧ ¬c = '*' :=
    fun c hc => ⟨(instr_spec (hp c hc)).1, (instr_spec (hp c hc)).2.1⟩
  have hqns : ∀ c ∈ q, ¬c = '/' ∧ ¬c = '*' :=
    fun c hc => ⟨(instr_spec (hq c hc)).1, (instr_spec (hq c hc)).2.1⟩
  rw [stripAll, h1, h2, sbm_append_id p hpns, sbm_open,
    sbm_append_id (stripWhitespace m) hm2, sbm_close, sbm_id_of q hqns,
    List.append_assoc]

/-! Claims about the sanitizer. -/

/-- C1 (amended): for every raw source text, `sanitise_code` either fails
with a positioned SyntaxError or returns the stripped text, which contains no
whitespace characters but is not restricted to the eight instruction
characters. -/
theorem C1_contract (code : List Char) :
    isPositionedSyntaxError (sanitise_code code) = true ∨
    (sanitise_code code = .ok (stripAll code) ∧
      (stripAll code).all (fun c => !(isStrippedWS c)) = true) := by
  have hall : (stripAll code).all (fun c => !(isStrippedWS c)) = true := by
    rw [List.all_eq_true]
    intro c hc
    simp [notWS_of_mem_stripAll hc]
  rcases hf : find2 '/' '*' (stripAll code) with _ | p
  · rcases hg : find2 '*' '/' (stripAll code) with _ | p
    · rw [sanitise_of_no_marker hf hg]
      by_cases hgt : countChar '[' (stripAll code) > countChar ']' (stripAll code)
      · rw [if_pos hgt]
        rcases hi : findIdxChar '[' code with _ | i
        · exact Or.inr ⟨rfl, hall⟩
        · exact Or.inl rfl
      · rw [if_neg hgt]
        by_cases hlt : countChar '[' (stripAll code) < countChar ']' (stripAll code)
        · rw [if_pos hlt]
          rcases hi : rfindIdxChar ']' code with _ | i
          · exact Or.inr ⟨rfl, hall⟩
          · exact Or.inl rfl
        · rw [if_neg hlt]; exact Or.inr ⟨rfl, hall⟩
    · left; rw [sanitise_code, hf, hg]; rfl
  · left; rw [sanitise_code, hf]; rfl

/-- C1 counterexample: the source text consisting of the single letter a is
accepted by the sanitizer and returned unchanged, although a is not one of the
eight instruction characters; the claimed contract (output holds only the
eight instruction characters) is false. -/
theorem C1_counterexample :
    sanitise_code ['a'] = .ok ['a'] ∧ isInstr 'a' = false :=
  ⟨rfl, rfl⟩

/-- C2 (amended): the block-comment pass deletes only the two markers (and the
whitespace pass deletes whitespace), so inserting a block comment whose body
is whitespace between the instructions of a bracket-balanced instruction-only
program leaves the sanitized output unchanged, while a block comment whose
body consists of instruction characters contributes its body to the sanitized
output instead of being removed. -/
theorem C2_comment_insertion (p q ws b : List Char)
    (hp : ∀ c ∈ p, isInstr c = true) (hq : ∀ c ∈ q, isInstr c = true)
    (hws : ∀ c ∈ ws, isStrippedWS c = true) (hb : ∀ c ∈ b, isInstr c = true)
    (hbal : countChar '[' (p ++ q) = countChar ']' (p ++ q))
    (hbal2 : countChar '[' (p ++ b ++ q) = countChar ']' (p ++ b ++ q)) :
    sanitise_code (p ++ '/' :: '*' :: (ws ++ '*' :: '/' :: q)) = sanitise_code (p ++ q) ∧
    sanitise_code (p ++ q) = .ok (p ++ q) ∧
    sanitise_code (p ++ '/' :: '*' :: (b ++ '*' :: '/' :: q)) = .ok (p ++ b ++ q) := by
  have hwsm : ∀ c ∈ ws, ¬c = '/' ∧ ¬c = '*' := fun c hc => ws_spec (hws c hc)
  have hbm : ∀ c ∈ b, ¬c = '/' ∧ ¬c = '*' :=
    fun c hc => ⟨(instr_spec (hb c hc)).1, (instr_spec (hb c hc)).2.1⟩
  have hA : stripAll (p ++ '/' :: '*' :: (ws ++ '*' :: '/' :: q)) = p ++ q := by
    rw [stripAll_block p ws q hp hq hwsm, sw_nil_of ws hws, List.append_nil]
  have hB : stripAll (p ++ '/' :: '*' :: (b ++ '*' :: '/' :: q)) = p ++ b ++ q := by
    rw [stripAll_block p b q hp hq hbm, sw_id_of b (fun c hc => (instr_spec (hb c hc)).2.2)]
  have hpq : ∀ c ∈ p ++ q, isInstr c = true := by
    intro c hc
    rcases List.mem_append.mp hc with h | h
    exacts [hp c h, hq c h]
  have hpbq : ∀ c ∈ p ++ b ++ q, isInstr c = true := by
    intro c hc
    rcases List.mem_append.mp hc with h | h
    · rcases List.mem_append.mp h with h2 | h2
      exacts [hp c h2, hb c h2]
    · exact hq c h
  have hCpq : stripAll (p ++ q) = p ++ q := stripAll_of_instr _ hpq
  have e1 : sanitise_code (p ++ q) = .ok (p ++ q) := by
    have hx : sanitise_code (p ++ q) = .ok (stripAll (p ++ q)) :=
      sanitise_ok_of_clean
        (by rw [hCpq]; exact find2_none_of '*' _ (fun c hc => (instr_spec (hpq c hc)).1))
        (by rw [hCpq]; exact find2_none_of '/' _ (fun c hc => (instr_spec (hpq c hc)).2.1))
        (by rw [hCpq]; exact hbal)
    rw [hx, hCpq]
  have e2 : sanitise_code (p ++ '/' :: '*' :: (ws ++ '*' :: '/' :: q)) = .ok (p ++ q) := by
    have hx : sanitise_code (p ++ '/' :: '*' :: (ws ++ '*' :: '/' :: q)) =
        .ok (stripAll (p ++ '/' :: '*' :: (ws ++ '*' :: '/' :: q))) :=
      sanitise_ok_of_clean
        (by rw [hA]; exact find2_none_of '*' _ (fun c hc => (instr_spec (hpq c hc)).1))
        (by rw [hA]; exact find2_none_of '/' _ (fun c hc => (instr_spec (hpq c hc)).2.1))
        (by rw [hA]; exact hbal)
    rw [hx, hA]
  have e3 : sanitise_code (p ++ '/' :: '*' :: (b ++ '*' :: '/' :: q)) = .ok (p ++ b ++ q) := by
    have hx : sanitise_code (p ++ '/' :: '*' :: (b ++ '*' :: '/' :: q)) =
        .ok (stripAll (p ++ '/' :: '*' :: (b ++ '*' :: '/' :: q))) :=
      sanitise_ok_of_clean
        (by rw [hB]; exact find2_none_of '*' _ (fun c hc => (instr_spec (hpbq c hc)).1))
        (by rw [hB]; exact find2_none_of '/' _ (fun c hc => (instr_spec (hpbq c hc)).2.1))
        (by rw [hB]; exact hbal2)
    rw [hx, hB]
  exact ⟨e2.trans e1.symm, e1, e3⟩

/-- C2 witness: inserting the whitespace-body block comment between the plus
and the loop of the program plus-loop-entry-loop-exit changes nothing, and an
instruction-body comment contributes its body. -/
theorem C2_witness :
    sanitise_code (['+'] ++ '/' :: '*' :: ([' '] ++ '*' :: '/' :: ['[', ']'])) =
      sanitise_code (['+'] ++ ['[', ']']) ∧
    sanitise_code (['+'] ++ ['[', ']']) = .ok (['+'] ++ ['[', ']']) ∧
    sanitise_code (['+'] ++ '/' :: '*' :: (['-'] ++ '*' :: '/' :: ['[', ']'])) =
      .ok (['+'] ++ ['-'] ++ ['[', ']']) :=
  C2_comment_insertion ['+'] ['[', ']'] [' '] ['-']
    (by decide) (by decide) (by decide) (by decide) (by decide) (by decide)

/-- C2 counterexample: inserting the block comment with body minus between
the two instructions of plus-plus changes the sanitized output, because the
pass removes only the markers and leaves the body in place. -/
theorem C2_counterexample :
    sanitise_code ['+', '/', '*', '-', '*', '/', '+'] = .ok ['+', '-', '+'] ∧
    sanitise_code ['+', '+'] = .ok ['+', '+'] ∧
    ¬(['+', '-', '+'] : List Char) = ['+', '+'] :=
  ⟨rfl, rfl, by decide⟩

/-- C3 (amended): when an open marker survives all three passes, sanitization
fails with a SyntaxError positioned at the offset of that marker in the
fully-stripped text (not in the original source); when no open marker but a
close marker survives, likewise with the close-marker message. -/
theorem C3_marker_position (code : List Char) :
    (∀ p, find2 '/' '*' (stripAll code) = some p →
      sanitise_code code = .error ⟨.SyntaxError, some p, msgUnterminatedComment⟩) ∧
    (∀ p, find2 '/' '*' (stripAll code) = none →
      find2 '*' '/' (stripAll code) = some p →
      sanitise_code code = .error ⟨.SyntaxError, some p, msgStrayComment⟩) := by
  constructor
  · intro p hp
    rw [sanitise_code, hp]
  · intro p hn hp
    rw [sanitise_code, hn, hp]

/-- C3 witness: a surviving open marker (source slash, newline, slash, star,
star, slash, star) and a surviving close marker (source space, star, star,
slash, slash) are both reported at their stripped-text offset 0. -/
theorem C3_witness :
    sanitise_code ['/', '\n', '/', '*', '*', '/', '*'] =
      .error ⟨.SyntaxError, some 0, msgUnterminatedComment⟩ ∧
    sanitise_code [' ', '*', '*', '/', '/'] =
      .error ⟨.SyntaxError, some 0, msgStrayComment⟩ :=
  ⟨(C3_marker_position ['/', '\n', '/', '*', '*', '/', '*']).1 0 rfl,
   (C3_marker_position [' ', '*', '*', '/', '/']).2 0 rfl rfl⟩

/-- C3 counterexample: for the source space, star, star, slash, slash the
stripped text is a close marker, and the reported position is 0, while the
close marker sits at offset 2 of the original source text (and the two
characters that survive the passes sit at original offsets 1 and 4); the
reported offset is not an offset into the original source. -/
theorem C3_counterexample :
    sanitise_code [' ', '*', '*', '/', '/'] = .error ⟨.SyntaxError, some 0, msgStrayComment⟩ ∧
    find2 '*' '/' [' ', '*', '*', '/', '/'] = some 2 :=
  ⟨rfl, rfl⟩

/-- C8 (amended): provided no block-comment marker survives stripping, a
surplus of loop entries fails with a SyntaxError at the first loop-entry
character of the original source, and a surplus of loop exits fails with a
SyntaxError at the last loop-exit character of the original source. -/
theorem C8_bracket_balance (code : List Char)
    (h1 : find2 '/' '*' (stripAll code) = none)
    (h2 : find2 '*' '/' (stripAll code) = none) :
    (countChar '[' (stripAll code) > countChar ']' (stripAll code) →
      ∃ i, findIdxChar '[' code = some i ∧
        sanitise_code code = .error ⟨.SyntaxError, some i, msgUnterminatedLoop⟩) ∧
    (countChar '[' (stripAll code) < countChar ']' (stripAll code) →
      ∃ i, rfindIdxChar ']' code = some i ∧
        sanitise_code code = .error ⟨.SyntaxError, some i, msgTrailingLoop⟩) := by
  constructor
  · intro hgt
    have hmem : '[' ∈ code := mem_stripAll (countChar_pos_mem (by omega))
    obtain ⟨i, hi⟩ := Option.isSome_iff_exists.mp (findIdxChar_isSome hmem)
    refine ⟨i, hi, ?_⟩
    rw [sanitise_of_no_marker h1 h2, if_pos hgt, hi]
  · intro hlt
    have hmem : ']' ∈ code := mem_stripAll (countChar_pos_mem (by omega))
    obtain ⟨i, hi⟩ := Option.isSome_iff_exists.mp (rfindIdxChar_isSome hmem)
    refine ⟨i, hi, ?_⟩
    rw [sanitise_of_no_marker h1 h2, if_neg (by omega), if_pos hlt, hi]

/-- C8 witness: an unmatched loop entry is reported at the first loop entry
of the original source (offset 0 for the loop-entry-plus program) and an
unmatched loop exit at the last loop exit of the original source. -/
theorem C8_witness :
    sanitise_code ['[', '+'] = .error ⟨.SyntaxError, some 0, msgUnterminatedLoop⟩ ∧
    sanitise_code [']', '+', ']'] = .error ⟨.SyntaxError, some 2, msgTrailingLoop⟩ := by
  constructor
  · obtain ⟨i, hi, he⟩ := (C8_bracket_balance ['[', '+'] rfl rfl).1 (by decide)
    have : i = 0 := by
      have h2 : findIdxChar '[' ['[', '+'] = some 0 := rfl
      rw [h2] at hi
      exact (Option.some_inj.mp hi).symm
    rw [← this]
    exact he
  · obtain ⟨i, hi, he⟩ := (C8_bracket_balance [']', '+', ']'] rfl rfl).2 (by decide)
    have : i = 2 := by
      have h2 : rfindIdxChar ']' [']', '+', ']'] = some 2 := rfl
      rw [h2] at hi
      exact (Option.some_inj.mp hi).symm
    rw [← this]
    exact he

/-- C8 counterexample: the source star, star, slash, newline, slash,
loop-entry strips to a close marker followed by the loop entry, so entries
outnumber exits, yet sanitization reports the stray-close-marker SyntaxError
at position 0 instead of the first loop entry of the original source, which
is at offset 5. -/
theorem C8_counterexample :
    countChar '[' (stripAll ['*', '*', '/', '\n', '/', '[']) >
      countChar ']' (stripAll ['*', '*', '/', '\n', '/', '[']) ∧
    findIdxChar '[' ['*', '*', '/', '\n', '/', '['] = some 5 ∧
    sanitise_code ['*', '*', '/', '\n', '/', '['] =
      .error ⟨.SyntaxError, some 0, msgStrayComment⟩ :=
  ⟨by decide, rfl, rfl⟩

/-! Helper lemmas about the execution engine. -/

theorem updMem_lookup (m : Nat → Int) (i : Nat) (v : Int) (j : Nat) :
    updMem m i v j = if j = i then v else m j := rfl

theorem step_gt (inputs : Nat → Char) (s : EngState) :
    step inputs '>' s =
      (if s.ptr = 29999 then .fail ⟨.OutOfBoundsError, none, msgRight⟩
      else .next { s with ptr := s.ptr + 1,
                          furthest := if s.ptr + 1 > s.furthest then s.ptr + 1 else s.furthest,
                          codeIdx := s.codeIdx + 1 }) := rfl

theorem step_lt (inputs : Nat → Char) (s : EngState) :
    step inputs '<' s =
      (if s.ptr = 0 then .fail ⟨.OutOfBoundsError, none, msgLeft⟩
      else .next { s with ptr := s.ptr - 1, codeIdx := s.codeIdx + 1 }) := rfl

theorem step_plus (inputs : Nat → Char) (s : EngState) :
    step inputs '+' s =
      (if s.memory s.ptr = 255 then .fail ⟨.OverflowError, none, msgOverflow⟩
      else .next { s with memory := updMem s.memory s.ptr (s.memory s.ptr + 1),
                          codeIdx := s.codeIdx + 1 }) := rfl

theorem step_minus (inputs : Nat → Char) (s : EngState) :
    step inputs '-' s =
      (if s.memory s.ptr = 0 then .fail ⟨.SubZeroError, none, msgSubZero⟩
      else .next { s with memory := updMem s.memory s.ptr (s.memory s.ptr - 1),
                          codeIdx := s.codeIdx + 1 }) := rfl

theorem step_lbrack (inputs : Nat → Char) (s : EngState) :
    step inputs '[' s =
      .next { s with stack := s.codeIdx :: s.stack, codeIdx := s.codeIdx + 1 } := rfl

theorem step_rbrack (inputs : Nat → Char) (s : EngState) :
    step inputs ']' s =
      (if s.memory s.ptr > 0 then
        match s.stack with
        | i :: _ => .next { s with codeIdx := i + 1 }
        | [] => .fail ⟨.FatalError, none, msgFatal⟩
      else .next { s with stack := s.stack.tail, codeIdx := s.codeIdx + 1 }) := rfl

theorem step_dot (inputs : Nat → Char) (s : EngState) :
    step inputs '.' s =
      (if isValidCharNat (u32OfI32 (s.memory s.ptr)) then
        .next { s with output := s.output ++ [Char.ofNat (u32OfI32 (s.memory s.ptr)), '\n'],
                       hasOutput := true, codeIdx := s.codeIdx + 1 }
      else .fail ⟨.FatalError, none, msgFromU32⟩) := rfl

theorem step_comma (inputs : Nat → Char) (s : EngState) :
    step inputs ',' s =
      (if (inputs s.inIdx).toNat > 255 then
        .fail ⟨.OverflowError, some s.codeIdx, msgInputOverflow⟩
      else .next { s with memory := updMem s.memory s.ptr ((inputs s.inIdx).toNat : Int),
                          inIdx := s.inIdx + 1, codeIdx := s.codeIdx + 1 }) := rfl

/-- One engine step out of a state within bounds stays within bounds. -/
theorem step_preserves (inputs : Nat → Char) (c : Char) (s s2 : EngState)
    (hInv : EngInv s) (h : step inputs c s = .next s2) : EngInv s2 := by
  obtain ⟨hmem, hptr⟩ := hInv
  by_cases h1 : c = '>'
  · subst h1
    rw [step_gt] at h
    split at h
    · cases h
    · rename_i hcond
      cases h
      refine ⟨hmem, ?_⟩
      dsimp only
      omega
  by_cases h2 : c = '<'
  · subst h2
    rw [step_lt] at h
    split at h
    · cases h
    · cases h
      refine ⟨hmem, ?_⟩
      dsimp only
      omega
  by_cases h3 : c = '+'
  · subst h3
    rw [step_plus] at h
    split at h
    · cases h
    · rename_i hcond
      cases h
      refine ⟨fun i => ?_, hptr⟩
      dsimp only
      rw [updMem_lookup]
      split
      · have := hmem s.ptr
        omega
      · exact hmem i
  by_cases h4 : c = '-'
  · subst h4
    rw [step_minus] at h
    split at h
    · cases h
    · rename_i hcond
      cases h
      refine ⟨fun i => ?_, hptr⟩
      dsimp only
      rw [updMem_lookup]
      split
      · have := hmem s.ptr
        omega
      · exact hmem i
  by_cases h5 : c = '['
  · subst h5
    rw [step_lbrack] at h
    cases h
    exact ⟨hmem, hptr⟩
  by_cases h6 : c = ']'
  · subst h6
    rw [step_rbrack] at h
    split at h
    · rcases hst : s.stack with _ | ⟨i, rest⟩ <;> rw [hst] at h
      · cases h
      · cases h
        exact ⟨hmem, hptr⟩
    · cases h
      exact ⟨hmem, hptr⟩
  by_cases h7 : c = '.'
  · subst h7
    rw [step_dot] at h
    split at h
    · cases h
      exact ⟨hmem, hptr⟩
    · cases h
  by_cases h8 : c = ','
  · subst h8
    rw [step_comma] at h
    split at h
    · cases h
    · rename_i hcond
      cases h
      refine ⟨fun i => ?_, hptr⟩
      dsimp only
      rw [updMem_lookup]
      split
      · omega
      · exact hmem i
  · rw [step, if_neg h1, if_neg h2, if_neg h3, if_neg h4, if_neg h5, if_neg h6,
      if_neg h7, if_neg h8] at h
    cases h

/-- Running any number of steps out of a state within bounds ends within
bounds whenever the loop exits normally. -/
theorem run_preserves (inputs : Nat → Char) (code : List Char) :
    ∀ (fuel : Nat) (s s2 : EngState), EngInv s → run inputs code fuel s = .ok s2 → EngInv s2
  | 0, s, s2, _, h => by simp [run] at h
  | fuel + 1, s, s2, hInv, h => by
    rw [run] at h
    split at h
    · cases h
      exact hInv
    · rename_i c hg
      split at h
      · rename_i s3 hs
        exact run_preserves inputs code fuel s3 s2 (step_preserves inputs c s s3 hInv hs) h
      · cases h

theorem initState_inv : EngInv initState := by
  refine ⟨fun i => ?_, ?_⟩ <;> simp [initState, initMem]

/-! Claims about the execution engine. -/

/-- C4 (amended): the output instruction prints, via println, the character
whose code point equals the current cell value followed by a newline; the echo
program (input then output) fed the character A leaves cell 0 at 65 and
prints A followed by a newline, not the single character A alone. -/
theorem C4_output (inputs : Nat → Char) (s : EngState)
    (h0 : 0 ≤ s.memory s.ptr) (h255 : s.memory s.ptr ≤ 255) :
    step inputs '.' s = .next { s with
      output := s.output ++ [Char.ofNat (u32OfI32 (s.memory s.ptr)), '\n'],
      hasOutput := true, codeIdx := s.codeIdx + 1 } ∧
    cellOf (run inpA [',', '.'] 5 initState) 0 = some 65 ∧
    outputOf (run inpA [',', '.'] 5 initState) = some ['A', '\n'] := by
  refine ⟨?_, rfl, rfl⟩
  have hmod : s.memory s.ptr % 4294967296 = s.memory s.ptr :=
    Int.emod_eq_of_lt h0 (by omega)
  have hvalid : isValidCharNat (u32OfI32 (s.memory s.ptr)) = true := by
    simp only [isValidCharNat, u32OfI32, hmod, Bool.or_eq_true, decide_eq_true_eq]
    left
    omega
  rw [step_dot, if_pos hvalid]

/-- C4 witness: the output instruction at the initial state. -/
theorem C4_witness :
    step inpA '.' initState = .next { initState with
      output := initState.output ++ [Char.ofNat (u32OfI32 (initState.memory initState.ptr)), '\n'],
      hasOutput := true, codeIdx := initState.codeIdx + 1 } :=
  (C4_output inpA initState (by decide) (by decide)).1

/-- C4 counterexample: the echo scenario prints the character A and then a
newline, so the emitted text is not exactly the single character A. -/
theorem C4_counterexample :
    outputOf (run inpA [',', '.'] 5 initState) = some ['A', '\n'] ∧
    ¬(['A', '\n'] : List Char) = ['A'] :=
  ⟨rfl, by decide⟩

/-- C5: a loop-exit instruction executed with the current cell above zero and
an empty loop-return stack fails with the FatalError carrying the expect
message of the Rust source, an error kind distinct from the four thrown
kinds; it does not continue to a next state. -/
theorem C5_defensive (inputs : Nat → Char) (s : EngState)
    (hv : s.memory s.ptr > 0) (hstk : s.stack = []) :
    step inputs ']' s = .fail ⟨.FatalError, none, msgFatal⟩ ∧
    (∀ e, step inputs ']' s = .fail e →
      ¬e.kind = .SyntaxError ∧ ¬e.kind = .OutOfBoundsError ∧
      ¬e.kind = .OverflowError ∧ ¬e.kind = .SubZeroError) := by
  have hstep : step inputs ']' s = .fail ⟨.FatalError, none, msgFatal⟩ := by
    rw [step_rbrack, if_pos hv, hstk]
  refine ⟨hstep, fun e he => ?_⟩
  rw [hstep] at he
  cases he
  exact ⟨by decide, by decide, by decide, by decide⟩

/-- C5 witness: cell 0 at value 1, empty stack. -/
theorem C5_witness :
    step inpA ']' wsStk = .fail ⟨.FatalError, none, msgFatal⟩ :=
  (C5_defensive inpA wsStk (by decide) rfl).1

/-- C6: the initial state is within bounds, every engine step out of a state
within bounds stays within bounds, every completed run out of a state within
bounds ends within bounds, and the four bound-violating operations fail with
their error rather than wrapping. -/
theorem C6_invariant :
    EngInv initState ∧
    (∀ inputs c s s2, EngInv s → step inputs c s = .next s2 → EngInv s2) ∧
    (∀ inputs code fuel s s2, EngInv s → run inputs code fuel s = .ok s2 → EngInv s2) ∧
    (∀ inputs s, s.ptr = 29999 → step inputs '>' s = .fail ⟨.OutOfBoundsError, none, msgRight⟩) ∧
    (∀ inputs s, s.ptr = 0 → step inputs '<' s = .fail ⟨.OutOfBoundsError, none, msgLeft⟩) ∧
    (∀ inputs s, s.memory s.ptr = 255 →
      step inputs '+' s = .fail ⟨.OverflowError, none, msgOverflow⟩) ∧
    (∀ inputs s, s.memory s.ptr = 0 →
      step inputs '-' s = .fail ⟨.SubZeroError, none, msgSubZero⟩) := by
  refine ⟨initState_inv, step_preserves, run_preserves, ?_, ?_, ?_, ?_⟩
  · intro inputs s h
    rw [step_gt, if_pos h]
  · intro inputs s h
    rw [step_lt, if_pos h]
  · intro inputs s h
    rw [step_plus, if_pos h]
  · intro inputs s h
    rw [step_minus, if_pos h]

/-- C6 witness: the invariant holds after one increment step from the initial
state, and the increment at a cell holding 255 fails. -/
theorem C6_witness :
    EngInv sAfterPlus ∧ step inpA '+' wsPtr0 = .fail ⟨.OverflowError, none, msgOverflow⟩ :=
  ⟨C6_invariant.2.1 inpA '+' initState sAfterPlus C6_invariant.1 rfl,
   C6_invariant.2.2.2.2.2.1 inpA wsPtr0 (by decide)⟩

/-- C7: moving left fails with OutOfBoundsError exactly at pointer 0 and
otherwise succeeds, moving right fails with OutOfBoundsError exactly at
pointer 29999 and otherwise succeeds, incrementing fails with OverflowError
exactly at cell value 255, and decrementing fails with SubZeroError exactly
at cell value 0. -/
theorem C7_bounds (inputs : Nat → Char) (s : EngState) :
    (s.ptr = 0 → step inputs '<' s = .fail ⟨.OutOfBoundsError, none, msgLeft⟩) ∧
    (¬s.ptr = 0 →
      step inputs '<' s = .next { s with ptr := s.ptr - 1, codeIdx := s.codeIdx + 1 }) ∧
    (s.ptr = 29999 → step inputs '>' s = .fail ⟨.OutOfBoundsError, none, msgRight⟩) ∧
    (¬s.ptr = 29999 →
      step inputs '>' s = .next { s with
        ptr := s.ptr + 1,
        furthest := if s.ptr + 1 > s.furthest then s.ptr + 1 else s.furthest,
        codeIdx := s.codeIdx + 1 }) ∧
    (s.memory s.ptr = 255 → step inputs '+' s = .fail ⟨.OverflowError, none, msgOverflow⟩) ∧
    (¬s.memory s.ptr = 255 →
      step inputs '+' s = .next { s with
        memory := updMem s.memory s.ptr (s.memory s.ptr + 1),
        codeIdx := s.codeIdx + 1 }) ∧
    (s.memory s.ptr = 0 → step inputs '-' s = .fail ⟨.SubZeroError, none, msgSubZero⟩) ∧
    (¬s.memory s.ptr = 0 →
      step inputs '-' s = .next { s with
        memory := updMem s.memory s.ptr (s.memory s.ptr - 1),
        codeIdx := s.codeIdx + 1 }) := by
  refine ⟨?_, ?_, ?_, ?_, ?_, ?_, ?_, ?_⟩ <;> intro h
  · rw [step_lt, if_pos h]
  · rw [step_lt, if_neg h]
  · rw [step_gt, if_pos h]
  · rw [step_gt, if_neg h]
  · rw [step_plus, if_pos h]
  · rw [step_plus, if_neg h]
  · rw [step_minus, if_pos h]
  · rw [step_minus, if_neg h]

/-- C7 witness: all eight branches exercised at concrete states: the pointer
at 0 with cell 255, the pointer at 29999, and the pointer at 5 with zero
cells. -/
theorem C7_witness :
    step inpA '<' wsPtr0 = .fail ⟨.OutOfBoundsError, none, msgLeft⟩ ∧
    step inpA '+' wsPtr0 = .fail ⟨.OverflowError, none, msgOverflow⟩ ∧
    step inpA '-' wsPtr0 = .next { wsPtr0 with
      memory := updMem wsPtr0.memory wsPtr0.ptr (wsPtr0.memory wsPtr0.ptr - 1),
      codeIdx := wsPtr0.codeIdx + 1 } ∧
    step inpA '>' wsPtrMax = .fail ⟨.OutOfBoundsError, none, msgRight⟩ ∧
    step inpA '-' wsPtrMid = .fail ⟨.SubZeroError, none, msgSubZero⟩ ∧
    step inpA '<' wsPtrMid = .next { wsPtrMid with
      ptr := wsPtrMid.ptr - 1,
      codeIdx := wsPtrMid.codeIdx + 1 } ∧
    step inpA '>' wsPtrMid = .next { wsPtrMid with
      ptr := wsPtrMid.ptr + 1,
      furthest := if wsPtrMid.ptr + 1 > wsPtrMid.furthest then wsPtrMid.ptr + 1
        else wsPtrMid.furthest,
      codeIdx := wsPtrMid.codeIdx + 1 } ∧
    step inpA '+' wsPtrMid = .next { wsPtrMid with
      memory := updMem wsPtrMid.memory wsPtrMid.ptr (wsPtrMid.memory wsPtrMid.ptr + 1),
      codeIdx := wsPtrMid.codeIdx + 1 } :=
  ⟨(C7_bounds inpA wsPtr0).1 rfl,
   (C7_bounds inpA wsPtr0).2.2.2.2.1 (by decide),
   (C7_bounds inpA wsPtr0).2.2.2.2.2.2.2 (by decide),
   (C7_bounds inpA wsPtrMax).2.2.1 rfl,
   (C7_bounds inpA wsPtrMid).2.2.2.2.2.2.1 rfl,
   (C7_bounds inpA wsPtrMid).2.1 (by decide),
   (C7_bounds inpA wsPtrMid).2.2.2.1 (by decide),
   (C7_bounds inpA wsPtrMid).2.2.2.2.2.1 (by decide)⟩

/-- C9: the loop program loop-entry, decrement, loop-exit started with cell 0
at value 5 terminates normally with that cell at 0, the pointer back at its
starting position 0, and the loop-return stack empty. -/
theorem C9_loop :
    ∃ s, run inpA ['[', '-', ']'] 12 { initState with memory := updMem initMem 0 5 } = .ok s ∧
      s.memory 0 = 0 ∧ s.ptr = 0 ∧ s.stack = [] :=
  ⟨_, rfl, rfl, rfl, rfl⟩

/-- C10: increment, decrement and input, when they succeed, change no tape
cell other than the one under the data pointer, and leave the data pointer,
the furthest pointer and the loop-return stack unchanged. -/
theorem C10_frame (inputs : Nat → Char) (c : Char) (s s2 : EngState)
    (hc : c = '+' ∨ c = '-' ∨ c = ',')
    (h : step inputs c s = .next s2) :
    (∀ j, ¬j = s.ptr → s2.memory j = s.memory j) ∧
    s2.ptr = s.ptr ∧ s2.furthest = s.furthest ∧ s2.stack = s.stack := by
  rcases hc with rfl | rfl | rfl
  · rw [step_plus] at h
    split at h
    · cases h
    · cases h
      refine ⟨fun j hj => ?_, rfl, rfl, rfl⟩
      dsimp only
      rw [updMem_lookup, if_neg hj]
  · rw [step_minus] at h
    split at h
    · cases h
    · cases h
      refine ⟨fun j hj => ?_, rfl, rfl, rfl⟩
      dsimp only
      rw [updMem_lookup, if_neg hj]
  · rw [step_comma] at h
    split at h
    · cases h
    · cases h
      refine ⟨fun j hj => ?_, rfl, rfl, rfl⟩
      dsimp only
      rw [updMem_lookup, if_neg hj]

/-- C10 witness: after an increment at the initial state, cell 5 and the
pointer, furthest pointer and stack are untouched. -/
theorem C10_witness :
    sAfterPlus.memory 5 = initState.memory 5 ∧
    sAfterPlus.ptr = initState.ptr ∧
    sAfterPlus.furthest = initState.furthest ∧
    sAfterPlus.stack = initState.stack :=
  ⟨(C10_frame inpA '+' initState sAfterPlus (Or.inl rfl) rfl).1 5 (by decide),
   (C10_frame inpA '+' initState sAfterPlus (Or.inl rfl) rfl).2.1,
   (C10_frame inpA '+' initState sAfterPlus (Or.inl rfl) rfl).2.2.1,
   (C10_frame inpA '+' initState sAfterPlus (Or.inl rfl) rfl).2.2.2⟩

end Brainfuck
